import Mathlib

/-
Verification of the AskGo matching and response-generation engine
(`main.go`) against its natural-language specification.

Modelling conventions:
* `float64` values that can become NaN or ±Inf are modelled as `Option ℝ`:
  `some x` is a finite float, `none` is a non-finite value (NaN or an
  infinity).  Vector components and similarity scores, which stay finite in
  every reachable state, are modelled as plain `ℝ`.
* Go maps are modelled as association lists with unique keys; insertion
  overwrites in place.  The unspecified iteration order of a Go `range`
  over a map is modelled by passing the enumeration sequence explicitly.
* The external part-of-speech tagger (prose) is a black box and is passed
  as a function `String → Option (List (String × String))`, `none`
  modelling a tagger failure (the `err != nil` branch).
* The random choice among the built-in starter answers is modelled by an
  explicit natural-number parameter.
-/

noncomputable section

abbrev Vec := List ℝ

/-- Addition on modelled float64 values: any operation touching a
non-finite value stays non-finite. -/
def fadd : Option ℝ → Option ℝ → Option ℝ
  | some a, some b => some (a + b)
  | _, _ => none

/-- Multiplication on modelled float64 values. -/
def fmul : Option ℝ → Option ℝ → Option ℝ
  | some a, some b => some (a * b)
  | _, _ => none

/-- Division on modelled float64 values.  Division by zero produces a
non-finite IEEE value (0/0 is NaN, x/0 is ±Inf), modelled as `none`. -/
def fdiv : Option ℝ → Option ℝ → Option ℝ
  | some a, some b => if b = 0 then none else some (a / b)
  | _, _ => none

/-- Lookup in a Go map modelled as an association list. -/
def mapLookup {α : Type} : List (String × α) → String → Option α
  | [], _ => none
  | (k, v) :: rest, key => if k = key then some v else mapLookup rest key

/-- Insertion into a Go map: overwrites the binding of an existing key,
otherwise appends a fresh binding. -/
def mapInsert {α : Type} : List (String × α) → String → α → List (String × α)
  | [], key, v => [(key, v)]
  | (k, v') :: rest, key, v =>
      if k = key then (key, v) :: rest else (k, v') :: mapInsert rest key v

structure KnowledgeEntry where
  question : String
  answer : String
  vector : Vec

structure KnowledgeBase where
  entries : List KnowledgeEntry
  learnedEntries : List (String × String)

/-- Model of `(*KnowledgeBase).Learn`: insert/overwrite into LearnedEntries keyed by
the literal question string. -/
def Learn (kb : KnowledgeBase) (question answer : String) : KnowledgeBase :=
  { kb with learnedEntries := mapInsert kb.learnedEntries question answer }

structure Interaction where
  question : String
  answer : String
  keywords : List String
  score : Option ℝ

/-- The zero value of `Interaction` (`var bestMatch Interaction`). -/
def emptyInteraction : Interaction := ⟨"", "", [], some 0⟩

structure AIEngine where
  kb : KnowledgeBase
  embeddings : List (String × Vec)
  greetings : List (String × String)
  commonQuestions : List (String × String)
  defaultResponses : List (String × String)
  contextMemory : List Interaction
  patterns : List (String × Option ℝ)

/-- The running sums of the loop in `cosineSimilarity`: dot product and the
two squared norms, all restricted to the common index range
`i < min (len vec1) (len vec2)`. -/
def simSums : Vec → Vec → ℝ × ℝ × ℝ
  | a :: as, b :: bs =>
      let r := simSums as bs
      (r.1 + a * b, r.2.1 + a * a, r.2.2 + b * b)
  | _, _ => (0, 0, 0)

/-- Model of `cosineSimilarity(vec1, vec2)`: dot/(√normA·√normB), 0 when either norm
is exactly zero. -/
def cosineSimilarity (vec1 vec2 : Vec) : ℝ :=
  let r := simSums vec1 vec2
  if r.2.1 = 0 ∨ r.2.2 = 0 then 0
  else r.1 / (Real.sqrt r.2.1 * Real.sqrt r.2.2)

/-- Model of `strings.ToLower`, characterwise (the configuration and the
questions of interest are ASCII, where Go and this model agree). -/
def goToLower (s : String) : String := String.mk (s.data.map Char.toLower)

/-- Accumulating splitter behind `stringFields`: `cur` is the reversed
current word. -/
def wordsAux : List Char → List Char → List String
  | cur, [] => if cur.isEmpty then [] else [String.mk cur.reverse]
  | cur, c :: rest =>
      if c.isWhitespace then
        if cur.isEmpty then wordsAux [] rest
        else String.mk cur.reverse :: wordsAux [] rest
      else wordsAux (c :: cur) rest

/-- Model of `strings.Fields`: split on runs of whitespace, dropping empty fields. -/
def stringFields (s : String) : List String := wordsAux [] s.data

/-- Model of `addVectors(a, b)`: a copy of `b` when `a` is empty, otherwise `a` with
`b` added componentwise over the common index range (extra components of
`a` survive, extra components of `b` are dropped). -/
def addVectors (a b : Vec) : Vec :=
  if a.length = 0 then b
  else List.zipWith (· + ·) a b ++ a.drop b.length

/-- Model of `averageVector(vec, count)`: divide every component by `count`, leaving
the vector untouched when `count` is 0. -/
def averageVector (vec : Vec) (count : ℕ) : Vec :=
  if count = 0 then vec else vec.map fun x => x / (count : ℝ)

/-- Model of `getSentenceVector(sentence, embeddings)`: lowercase, split into fields,
sum the embeddings of recognized words, divide by the total field count. -/
def getSentenceVector (sentence : String) (embeddings : List (String × Vec)) : Vec :=
  let words := stringFields (goToLower sentence)
  let vec := words.foldl
    (fun acc w =>
      match mapLookup embeddings w with
      | some v => addVectors acc v
      | none => acc) []
  averageVector vec words.length

/-- The loop body of `FindBestMatch`: keep the candidate only on a strictly
greater score. -/
def bmStep (queryVec : Vec) (best : String × ℝ) (entry : KnowledgeEntry) : String × ℝ :=
  let score := cosineSimilarity queryVec entry.vector
  if score > best.2 then (entry.answer, score) else best

/-- Model of `(*KnowledgeBase).FindBestMatch`: encode the query, scan every entry,
track the maximum similarity under a strict `>` comparison; the
accumulator starts at the zero values `("", 0)`. -/
def FindBestMatch (kb : KnowledgeBase) (question : String)
    (embeddings : List (String × Vec)) : String × ℝ :=
  let queryVec := getSentenceVector question embeddings
  kb.entries.foldl (bmStep queryVec) ("", 0)

/-- The doubly nested loop of `findSimilarInteraction`: count the pairs of
(query keyword, past keyword) that agree case-insensitively. -/
def matchCount (keywords ikeys : List String) : ℕ :=
  keywords.foldl
    (fun c k1 => c + (ikeys.filter fun k2 => goToLower k1 = goToLower k2).length) 0

/-- The loop body of `findSimilarInteraction`. -/
def fsiStep (keywords : List String) (best : Interaction × ℝ)
    (inter : Interaction) : Interaction × ℝ :=
  if keywords.length > 0 then
    let score := (matchCount keywords inter.keywords : ℝ) / (keywords.length : ℝ)
    if score > best.2 then (inter, score) else best
  else best

/-- Model of `(*AIEngine).findSimilarInteraction`: best case-insensitive keyword
overlap over the interaction log, normalized by the query keyword count. -/
def findSimilarInteraction (e : AIEngine) (keywords : List String) :
    Interaction × ℝ :=
  e.contextMemory.foldl (fsiStep keywords) (emptyInteraction, 0)

/-- Model of `(*AIEngine).evaluateContext`: sum of the Patterns weights of the
keywords (absent keywords contribute nothing), divided by the keyword
count.  For the empty list this is the float division 0/0. -/
def evaluateContext (e : AIEngine) (keywords : List String) : Option ℝ :=
  let score := keywords.foldl
    (fun s w =>
      match mapLookup e.patterns w with
      | some weight => fadd s weight
      | none => s) (some 0)
  fdiv score (some (keywords.length : ℝ))

/-- Model of `(*AIEngine).adaptResponse`: prefix the comma-joined keywords onto the
base answer when keywords are present. -/
def adaptResponse (base : String) (keywords : List String) : String :=
  if keywords.length > 0 then
    "Based on " ++ String.intercalate ", " keywords ++ ", I understand that " ++ base
  else base

/-- Model of `m[k] += inc` on the Patterns map: read (zero value 0 when absent), add,
store back. -/
def patternsAdd (p : List (String × Option ℝ)) (w : String) (inc : Option ℝ) :
    List (String × Option ℝ) :=
  mapInsert p w (fadd ((mapLookup p w).getD (some 0)) inc)

/-- Model of `(*AIEngine).learnFromInteraction`: append one Interaction to the log
and raise the Patterns weight of every keyword by `0.1 * score`. -/
def learnFromInteraction (e : AIEngine) (q a : String) (k : List String)
    (score : Option ℝ) : AIEngine :=
  { e with
    contextMemory := e.contextMemory ++ [⟨q, a, k, score⟩],
    patterns := k.foldl (fun p kw => patternsAdd p kw (fmul (some 0.1) score)) e.patterns }

/-- The external tagger capability: `none` models a tagger failure, `some`
the token/part-of-speech sequence. -/
abbrev Tagger := String → Option (List (String × String))

/-- Model of `(*AIEngine).analyzeInput`: nouns/proper nouns become keywords, verbs
become concepts; a tagger failure yields two empty lists. -/
def analyzeInput (tagger : Tagger) (input : String) : List String × List String :=
  match tagger input with
  | none => ([], [])
  | some toks =>
      ((toks.filter fun t => t.2 = "NOUN" ∨ t.2 = "PROPN").map Prod.fst,
       (toks.filter fun t => t.2 = "VERB").map Prod.fst)

/-- Model of `strings.Contains` on character lists: `sub` occurs contiguously in the
second list (the empty pattern is contained everywhere). -/
def charsContains (sub : List Char) : List Char → Bool
  | [] => sub.isEmpty
  | c :: rest => sub.isPrefixOf (c :: rest) || charsContains sub rest

/-- The common-questions substring scan, iterating in the order given by
`cq` (the unspecified Go map range order): the first key contained in the
lowered question wins. -/
def firstContained (cq : List (String × String)) (q : String) : Option String :=
  match cq with
  | [] => none
  | (k, v) :: rest => if charsContains k.data q.data then some v else firstContained rest q

/-- Model of `fmt.Sprintf` for a format containing a single `%s` verb, the only
shape the configuration uses; other shapes are returned unchanged. -/
def sprintf1 (f a : String) : String :=
  match f.splitOn "%s" with
  | [pre, post] => pre ++ a ++ post
  | _ => f

/-- The built-in starter answers of the final random fallback. -/
def starters : List String :=
  ["I\x27m here to help with Go programming. Could you specify what you\x27d like to learn about?",
   "I can assist you with various Go topics. What interests you most?",
   "Let me help you with Go! What would you like to explore?"]

/-- Model of `(*AIEngine).GenerateAnswer`: the layered resolver.  `cqOrder` is the
iteration sequence the Go runtime picked for the common-questions map and
`rnd` the value of `rand.Intn 3` in the final fallback; the result is the
answer string together with the updated engine state. -/
def GenerateAnswer (tagger : Tagger) (cqOrder : List (String × String))
    (rnd : ℕ) (e : AIEngine) (question : String) : String × AIEngine :=
  let keywords := (analyzeInput tagger question).1
  let contextScore := evaluateContext e keywords
  let bm := findSimilarInteraction e keywords
  if bm.2 > 0.8 then (adaptResponse bm.1.answer keywords, e)
  else
    match mapLookup e.kb.learnedEntries question with
    | some answer =>
        let adapted := adaptResponse answer keywords
        (adapted, learnFromInteraction e question adapted keywords contextScore)
    | none =>
        let questionLower := goToLower question
        match mapLookup e.greetings questionLower with
        | some response => (response, e)
        | none =>
            match firstContained cqOrder questionLower with
            | some value => (value, e)
            | none =>
                let best := FindBestMatch e.kb question e.embeddings
                if best.2 > 0.7 then (best.1, e)
                else
                  match tagger question with
                  | none => ((mapLookup e.defaultResponses "error").getD "", e)
                  | some _ =>
                      let keywords2 := (analyzeInput tagger question).1
                      if keywords2.length > 0 then
                        let techTerms := String.intercalate ", "
                          (keywords2.take (min 3 keywords2.length))
                        match mapLookup e.defaultResponses "keywords" with
                        | some dr => (sprintf1 dr techTerms, e)
                        | none =>
                            ("Let\x27s explore " ++ techTerms ++
                             " in detail. What specific aspects interest you?", e)
                      else
                        match mapLookup e.defaultResponses "default" with
                        | some dr => (dr, e)
                        | none => ((starters.get? (rnd % 3)).getD "", e)

/-- The `sentenceVector` description used by the specification: sum the
embeddings of the recognized words (a dimension-`D` vector) and divide
every component by the total word count; the empty vector when no word is
recognized. -/
def specSentenceVector (s : String) (emb : List (String × Vec)) (D : ℕ) : Vec :=
  let words := stringFields (goToLower s)
  let recognized := words.filterMap (mapLookup emb)
  if recognized.isEmpty then []
  else (recognized.foldl (List.zipWith (· + ·)) (List.replicate D 0)).map
    fun x => x / (words.length : ℝ)

/-- Every weight stored in a Patterns map is a finite, nonnegative float. -/
def finiteNonneg (p : List (String × Option ℝ)) : Prop :=
  ∀ x ∈ p, ∃ r : ℝ, x.2 = some r ∧ 0 ≤ r

/-- The Patterns weight of a keyword as Go reads it: the zero value 0 for
an absent keyword, 0 also as the default reading of a non-finite weight. -/
def weightD (p : List (String × Option ℝ)) (w : String) : ℝ :=
  ((mapLookup p w).getD (some 0)).getD 0

/-! ### Basic lemmas about the map model -/

theorem mapLookup_mapInsert_self {α : Type} (p : List (String × α)) (k : String) (v : α) :
    mapLookup (mapInsert p k v) k = some v := by
  induction p with
  | nil => simp [mapInsert, mapLookup]
  | cons x rest ih =>
      obtain ⟨k', v'⟩ := x
      by_cases h : k' = k
      · simp [mapInsert, h, mapLookup]
      · simp [mapInsert, h, mapLookup, ih]

theorem mapLookup_mapInsert_ne {α : Type} (p : List (String × α)) (k k' : String) (v : α)
    (h : k' ≠ k) : mapLookup (mapInsert p k v) k' = mapLookup p k' := by
  induction p with
  | nil => simp [mapInsert, mapLookup, Ne.symm h]
  | cons x rest ih =>
      obtain ⟨k₀, v₀⟩ := x
      by_cases h0 : k₀ = k
      · subst h0
        simp [mapInsert, mapLookup, Ne.symm h, ih]
      · simp [mapInsert, h0, mapLookup, ih]

theorem mem_mapInsert {α : Type} (p : List (String × α)) (k : String) (v : α) (x : String × α)
    (hx : x ∈ mapInsert p k v) : x = (k, v) ∨ x ∈ p := by
  induction p with
  | nil => simpa [mapInsert] using hx
  | cons y rest ih =>
      obtain ⟨k₀, v₀⟩ := y
      by_cases h0 : k₀ = k
      · simp only [mapInsert, if_pos h0] at hx
        rcases List.mem_cons.mp hx with h | h
        · exact Or.inl h
        · exact Or.inr (List.mem_cons_of_mem _ h)
      · simp only [mapInsert, if_neg h0] at hx
        rcases List.mem_cons.mp hx with h | h
        · exact Or.inr (h ▸ List.mem_cons_self _ _)
        · rcases ih h with h' | h'
          · exact Or.inl h'
          · exact Or.inr (List.mem_cons_of_mem _ h')

theorem mapLookup_mem {α : Type} (p : List (String × α)) (k : String) (v : α)
    (h : mapLookup p k = some v) : (k, v) ∈ p := by
  induction p with
  | nil => simp [mapLookup] at h
  | cons x rest ih =>
      obtain ⟨k₀, v₀⟩ := x
      by_cases h0 : k₀ = k
      · subst h0
        simp [mapLookup] at h
        simp [h]
      · simp [mapLookup, h0] at h
        exact List.mem_cons_of_mem _ (ih h)

/-! ### Lemmas about the similarity sums -/

theorem simSums_nil_left (b : Vec) : simSums [] b = (0, 0, 0) := by
  cases b <;> rfl

theorem simSums_nil_right (a : Vec) : simSums a [] = (0, 0, 0) := by
  cases a <;> rfl

theorem simSums_comm (a b : Vec) :
    simSums a b = ((simSums b a).1, (simSums b a).2.2, (simSums b a).2.1) := by
  induction a generalizing b with
  | nil => cases b <;> simp [simSums_nil_left, simSums_nil_right]
  | cons x as ih =>
      cases b with
      | nil => simp [simSums_nil_left, simSums_nil_right]
      | cons y bs =>
          simp only [simSums, ih bs]
          ring_nf

theorem simSums_self (v : Vec) :
    (simSums v v).1 = (simSums v v).2.1 ∧ (simSums v v).2.2 = (simSums v v).2.1 := by
  induction v with
  | nil => simp [simSums_nil_left]
  | cons x as ih => simp [simSums, ih.1, ih.2]

theorem simSums_self_nonneg (v : Vec) : 0 ≤ (simSums v v).2.1 := by
  induction v with
  | nil => simp [simSums_nil_left]
  | cons x as ih =>
      simp only [simSums]
      have := mul_self_nonneg x
      linarith

theorem simSums_self_pos (v : Vec) (x : ℝ) (hx : x ∈ v) (hx0 : x ≠ 0) :
    0 < (simSums v v).2.1 := by
  induction v with
  | nil => simp at hx
  | cons y as ih =>
      simp only [simSums]
      rcases List.mem_cons.mp hx with h | h
      · subst h
        have h1 := simSums_self_nonneg as
        have h2 : 0 < x * x := mul_self_pos.mpr hx0
        linarith
      · have h1 := ih h
        have h2 := mul_self_nonneg y
        linarith

theorem simSums_left_zero (a b : Vec) (h : ∀ x ∈ a, x = 0) : (simSums a b).2.1 = 0 := by
  induction a generalizing b with
  | nil => simp [simSums_nil_left]
  | cons x as ih =>
      cases b with
      | nil => simp [simSums_nil_right]
      | cons y bs =>
          have hx : x = 0 := h x (List.mem_cons_self _ _)
          have has : ∀ z ∈ as, z = 0 := fun z hz => h z (List.mem_cons_of_mem _ hz)
          simp [simSums, hx, ih bs has]

theorem simSums_right_zero (a b : Vec) (h : ∀ x ∈ b, x = 0) : (simSums a b).2.2 = 0 := by
  rw [simSums_comm]
  exact simSums_left_zero b a h

/-- Claim C6: cosine similarity is symmetric, equals 1 on a non-zero vector
paired with itself, and equals 0 whenever either argument is empty or
all-zero. -/
theorem cosineSimilarity_spec :
    (∀ a b : Vec, cosineSimilarity a b = cosineSimilarity b a) ∧
    (∀ v : Vec, (∃ x ∈ v, x ≠ 0) → cosineSimilarity v v = 1) ∧
    (∀ a b : Vec, (a = [] ∨ b = [] ∨ (∀ x ∈ a, x = 0) ∨ (∀ x ∈ b, x = 0)) →
      cosineSimilarity a b = 0) := by
  refine ⟨?_, ?_, ?_⟩
  · intro a b
    simp only [cosineSimilarity, simSums_comm a b]
    by_cases h1 : (simSums b a).2.2 = 0 <;> by_cases h2 : (simSums b a).2.1 = 0 <;>
      simp [h1, h2, mul_comm]
  · intro v hv
    obtain ⟨x, hx, hx0⟩ := hv
    have hpos : 0 < (simSums v v).2.1 := simSums_self_pos v x hx hx0
    obtain ⟨h1, h2⟩ := simSums_self v
    simp only [cosineSimilarity, h1, h2]
    rw [if_neg (by push_neg; exact ⟨ne_of_gt hpos, ne_of_gt hpos⟩)]
    rw [Real.mul_self_sqrt (le_of_lt hpos)]
    exact div_self (ne_of_gt hpos)
  · intro a b h
    rcases h with h | h | h | h
    · subst h; simp [cosineSimilarity, simSums_nil_left]
    · subst h; simp [cosineSimilarity, simSums_nil_right]
    · simp [cosineSimilarity, simSums_left_zero a b h]
    · simp [cosineSimilarity, simSums_right_zero a b h]

/-- Witness for C6 at concrete vectors. -/
theorem cosineSimilarity_spec_witness :
    cosineSimilarity [(1 : ℝ), 0] [0, 1] = cosineSimilarity [0, 1] [(1 : ℝ), 0] ∧
    cosineSimilarity [(2 : ℝ)] [(2 : ℝ)] = 1 ∧
    cosineSimilarity [(0 : ℝ)] [(5 : ℝ)] = 0 :=
  ⟨cosineSimilarity_spec.1 [(1 : ℝ), 0] [0, 1],
   cosineSimilarity_spec.2.1 [(2 : ℝ)] ⟨2, by norm_num, by norm_num⟩,
   cosineSimilarity_spec.2.2 [(0 : ℝ)] [(5 : ℝ)]
     (Or.inr (Or.inr (Or.inl (by norm_num))))⟩

/-- Helper: the value of `evaluateContext` on the empty keyword list. -/
theorem evalCtx_nil_keywords (e : AIEngine) : evaluateContext e [] = none := by
  simp [evaluateContext, fdiv]

/-- Claim C1: on the empty keyword list `evaluateContext` performs the
float division 0/0, whose result is NaN (modelled `none`), not 0; for a
non-empty keyword list it is the finite sum of the looked-up weights
divided by the keyword count (`evaluateContext_nonneg` below exhibits the
quotient form on finite states). -/
theorem evaluateContext_empty_nan (e : AIEngine) : evaluateContext e [] = none :=
  evalCtx_nil_keywords e

/-! ### Lemmas for the sentence encoder -/

theorem sentenceFold_eq_filterMap (emb : List (String × Vec)) (l : List String) (acc : Vec) :
    l.foldl (fun acc w =>
      match mapLookup emb w with
      | some v => addVectors acc v
      | none => acc) acc
      = (l.filterMap (mapLookup emb)).foldl addVectors acc := by
  induction l generalizing acc with
  | nil => rfl
  | cons w rest ih =>
      cases h : mapLookup emb w <;> simp [List.filterMap_cons, h, ih]

theorem addVectors_nil (b : Vec) : addVectors [] b = b := by
  simp [addVectors]

theorem addVectors_of_length_eq (a b : Vec) (h : a.length = b.length) :
    addVectors a b = List.zipWith (· + ·) a b := by
  unfold addVectors
  by_cases h0 : a.length = 0
  · have ha : a = [] := List.length_eq_zero.mp h0
    have hb : b = [] := List.length_eq_zero.mp (h ▸ h0)
    subst ha; subst hb
    rfl
  · rw [if_neg h0, ← h, List.drop_length, List.append_nil]

theorem zipWith_add_replicate_zero (v : Vec) : List.zipWith (· + ·) (List.replicate v.length 0) v = v := by
  induction v with
  | nil => rfl
  | cons x xs ih => simp [List.replicate_succ, ih]

theorem addVectors_foldl_of_uniform (D : ℕ) (l : List Vec) (hl : ∀ v ∈ l, v.length = D) :
    ∀ acc : Vec, acc.length = D →
      l.foldl addVectors acc = l.foldl (List.zipWith (· + ·)) acc ∧
        (l.foldl addVectors acc).length = D := by
  induction l with
  | nil => exact fun acc hacc => ⟨rfl, hacc⟩
  | cons v rest ih =>
      intro acc hacc
      have hv : v.length = D := hl v (List.mem_cons_self _ _)
      have hstep : addVectors acc v = List.zipWith (· + ·) acc v :=
        addVectors_of_length_eq acc v (by rw [hacc, hv])
      have hlen : (List.zipWith (· + ·) acc v).length = D := by
        simp [List.length_zipWith, hacc, hv]
      have hrest : ∀ u ∈ rest, u.length = D := fun u hu => hl u (List.mem_cons_of_mem _ hu)
      obtain ⟨h1, h2⟩ := ih hrest (List.zipWith (· + ·) acc v) hlen
      exact ⟨by simp only [List.foldl_cons, hstep, h1], by simpa [hstep] using h2⟩

theorem averageVector_nil (n : ℕ) : averageVector [] n = [] := by
  unfold averageVector
  by_cases h : n = 0 <;> simp [h]

/-- Claim C4: `getSentenceVector` lowercases and whitespace-splits the
sentence, sums the embeddings of the recognized words and divides
componentwise by the total word count (this is the refinement to
`specSentenceVector`, for an embedding table of uniform dimension `D`);
and when no word of the sentence is recognized the resulting vector has
cosine similarity 0 with every vector. -/
theorem getSentenceVector_spec (s : String) (emb : List (String × Vec)) (D : ℕ) :
    ((∀ w ∈ stringFields (goToLower s), mapLookup emb w = none) →
      ∀ v : Vec, cosineSimilarity (getSentenceVector s emb) v = 0) ∧
    ((∀ w v, mapLookup emb w = some v → v.length = D) →
      getSentenceVector s emb = specSentenceVector s emb D) := by
  constructor
  · intro h v
    have hrec : (stringFields (goToLower s)).filterMap (mapLookup emb) = [] :=
      List.filterMap_eq_nil_iff.mpr h
    have hzero : getSentenceVector s emb = [] := by
      simp only [getSentenceVector, sentenceFold_eq_filterMap, hrec, List.foldl_nil]
      exact averageVector_nil _
    rw [hzero]
    simp [cosineSimilarity, simSums_nil_left]
  · intro hD
    simp only [getSentenceVector, specSentenceVector, sentenceFold_eq_filterMap]
    have hrecD : ∀ v ∈ (stringFields (goToLower s)).filterMap (mapLookup emb), v.length = D := by
      intro v hv
      obtain ⟨w, _, hw⟩ := List.mem_filterMap.mp hv
      exact hD w v hw
    cases hrec : (stringFields (goToLower s)).filterMap (mapLookup emb) with
    | nil => simp [averageVector_nil]
    | cons v0 rest =>
        have hwords : stringFields (goToLower s) ≠ [] := by
          intro hw
          rw [hw] at hrec
          simp at hrec
        have hlen0 : (stringFields (goToLower s)).length ≠ 0 :=
          fun h => hwords (List.length_eq_zero.mp h)
        rw [hrec] at hrecD
        have hv0 : v0.length = D := hrecD v0 (List.mem_cons_self _ _)
        have hrest : ∀ u ∈ rest, u.length = D := fun u hu => hrecD u (List.mem_cons_of_mem _ hu)
        obtain ⟨h1, _⟩ := addVectors_foldl_of_uniform D rest hrest v0 hv0
        have hrepl : List.zipWith (· + ·) (List.replicate D 0) v0 = v0 := by
          rw [← hv0]
          exact zipWith_add_replicate_zero v0
        simp only [List.foldl_cons, addVectors_nil, h1, hrepl, List.isEmpty_cons,
          Bool.false_eq_true, if_false]
        unfold averageVector
        rw [if_neg hlen0]

/-- Witness for C4: a sentence with no recognized word (the embedding table
is empty) both has similarity 0 with a concrete vector and agrees with the
specification vector. -/
theorem getSentenceVector_spec_witness :
    cosineSimilarity (getSentenceVector "a b" []) [(1 : ℝ)] = 0 ∧
    getSentenceVector "a b" [] = specSentenceVector "a b" [] 2 :=
  ⟨(getSentenceVector_spec "a b" [] 2).1 (fun w _ => rfl) [(1 : ℝ)],
   (getSentenceVector_spec "a b" [] 2).2 (fun w v h => by simp [mapLookup] at h)⟩

/-! ### Lemmas for the best-match scan -/

theorem bmStep_snd (qv : Vec) (b : String × ℝ) (en : KnowledgeEntry) :
    (bmStep qv b en).2 = max b.2 (cosineSimilarity qv en.vector) := by
  unfold bmStep
  by_cases h : cosineSimilarity qv en.vector > b.2
  · rw [if_pos h]
    exact (max_eq_right (le_of_lt h)).symm
  · rw [if_neg h]
    exact (max_eq_left (not_lt.mp h)).symm

theorem bmFold_snd (qv : Vec) (l : List KnowledgeEntry) (b : String × ℝ) :
    (l.foldl (bmStep qv) b).2 =
      (l.map fun en => cosineSimilarity qv en.vector).foldl max b.2 := by
  induction l generalizing b with
  | nil => rfl
  | cons en rest ih =>
      simp only [List.foldl_cons, List.map_cons, ih]
      congr 1
      exact bmStep_snd qv b en

theorem bmStep_snd_le (qv : Vec) (b : String × ℝ) (en : KnowledgeEntry) :
    b.2 ≤ (bmStep qv b en).2 := by
  rw [bmStep_snd]
  exact le_max_left _ _

theorem bmFold_first (qv : Vec) (l : List KnowledgeEntry) (b : String × ℝ) :
    l.foldl (bmStep qv) b = b ∨
    ∃ i : Fin l.length,
      (l.foldl (bmStep qv) b).1 = (l.get i).answer ∧
      (l.foldl (bmStep qv) b).2 = cosineSimilarity qv (l.get i).vector ∧
      b.2 < (l.foldl (bmStep qv) b).2 ∧
      ∀ j : Fin l.length, (j : ℕ) < (i : ℕ) →
        cosineSimilarity qv (l.get j).vector < (l.foldl (bmStep qv) b).2 := by
  induction l generalizing b with
  | nil => exact Or.inl rfl
  | cons en rest ih =>
      rw [List.foldl_cons]
      rcases ih (bmStep qv b en) with h | ⟨i, h1, h2, h3, h4⟩
      · rw [h]
        by_cases hs : cosineSimilarity qv en.vector > b.2
        · refine Or.inr ⟨⟨0, Nat.succ_pos _⟩, ?_, ?_, ?_, ?_⟩
          · simp [bmStep, if_pos hs]
          · simp [bmStep, if_pos hs]
          · calc b.2 < cosineSimilarity qv en.vector := hs
              _ = (bmStep qv b en).2 := by simp [bmStep, if_pos hs]
          · intro j hj
            simp at hj
        · rw [bmStep, if_neg hs]
          exact Or.inl rfl
      · refine Or.inr ⟨⟨(i : ℕ) + 1, Nat.succ_lt_succ i.isLt⟩, ?_, ?_, ?_, ?_⟩
        · simpa using h1
        · simpa using h2
        · calc b.2 ≤ (bmStep qv b en).2 := bmStep_snd_le qv b en
            _ < (rest.foldl (bmStep qv) (bmStep qv b en)).2 := h3
        · intro j hj
          rcases j with ⟨jv, hjlt⟩
          cases jv with
          | zero =>
              have hle : cosineSimilarity qv en.vector ≤ (bmStep qv b en).2 := by
                rw [bmStep_snd]
                exact le_max_right _ _
              simpa using lt_of_le_of_lt hle h3
          | succ k =>
              have hk : k < (i : ℕ) := Nat.succ_lt_succ_iff.mp hj
              have hklt : k < rest.length := Nat.lt_trans hk i.isLt
              simpa using h4 ⟨k, hklt⟩ hk

/-- Claim C3: `FindBestMatch` scans every entry and returns the maximum
cosine similarity (clamped below by the starting score 0); it returns
`("", 0)` when the entry list is empty or every score is ≤ 0; and when the
returned score is positive it belongs to the first entry, in insertion
order, achieving it (every earlier entry scores strictly lower). -/
theorem FindBestMatch_spec (kb : KnowledgeBase) (q : String) (emb : List (String × Vec)) :
    (FindBestMatch kb q emb).2 =
      (kb.entries.map fun en =>
        cosineSimilarity (getSentenceVector q emb) en.vector).foldl max 0 ∧
    ((kb.entries = [] ∨
        ∀ en ∈ kb.entries, cosineSimilarity (getSentenceVector q emb) en.vector ≤ 0) →
      FindBestMatch kb q emb = ("", 0)) ∧
    (0 < (FindBestMatch kb q emb).2 →
      ∃ i : Fin kb.entries.length,
        (FindBestMatch kb q emb).1 = (kb.entries.get i).answer ∧
        (FindBestMatch kb q emb).2 =
          cosineSimilarity (getSentenceVector q emb) (kb.entries.get i).vector ∧
        ∀ j : Fin kb.entries.length, (j : ℕ) < (i : ℕ) →
          cosineSimilarity (getSentenceVector q emb) (kb.entries.get j).vector <
            (FindBestMatch kb q emb).2) := by
  refine ⟨?_, ?_, ?_⟩
  · exact bmFold_snd (getSentenceVector q emb) kb.entries ("", 0)
  · intro h
    rcases h with h | h
    · simp [FindBestMatch, h]
    · rcases bmFold_first (getSentenceVector q emb) kb.entries ("", 0) with h0 | ⟨i, _, h2, h3, _⟩
      · exact h0
      · exfalso
        have hle := h (kb.entries.get i) (kb.entries.get_mem _ _)
        rw [← h2] at hle
        simp only [FindBestMatch] at *
        exact absurd h3 (not_lt.mpr hle)
  · intro hpos
    rcases bmFold_first (getSentenceVector q emb) kb.entries ("", 0) with h0 | ⟨i, h1, h2, _, h4⟩
    · exfalso
      simp only [FindBestMatch] at hpos
      rw [h0] at hpos
      exact absurd hpos (by norm_num)
    · exact ⟨i, h1, h2, h4⟩

def KB1 : KnowledgeBase := ⟨[⟨"go", "A", [1]⟩], []⟩

def emb1 : List (String × Vec) := [("go", [1])]

/-- Witness for C3 at concrete knowledge bases: the empty base returns
`("", 0)`, and a base whose single entry matches its query exactly returns
that entry as the strictly-first maximum. -/
theorem FindBestMatch_spec_witness :
    FindBestMatch ⟨[], []⟩ "q" [] = ("", 0) ∧
    ∃ i : Fin KB1.entries.length,
      (FindBestMatch KB1 "go" emb1).1 = (KB1.entries.get i).answer ∧
      (FindBestMatch KB1 "go" emb1).2 =
        cosineSimilarity (getSentenceVector "go" emb1) (KB1.entries.get i).vector ∧
      ∀ j : Fin KB1.entries.length, (j : ℕ) < (i : ℕ) →
        cosineSimilarity (getSentenceVector "go" emb1) (KB1.entries.get j).vector <
          (FindBestMatch KB1 "go" emb1).2 := by
  constructor
  · exact (FindBestMatch_spec ⟨[], []⟩ "q" []).2.1 (Or.inl rfl)
  · refine (FindBestMatch_spec KB1 "go" emb1).2.2 ?_
    have hq : getSentenceVector "go" emb1 = [1] := by
      simp [getSentenceVector, emb1, stringFields, goToLower, wordsAux, mapLookup,
        addVectors_nil, averageVector]
    have hc : cosineSimilarity [(1 : ℝ)] [1] = 1 := by
      simp [cosineSimilarity, simSums]
    simp only [FindBestMatch, KB1, hq, List.foldl_cons, List.foldl_nil]
    simp [bmStep, hc]

/-! ### Branch lemmas for the layered resolver -/

theorem fsiStep_nil (best : Interaction × ℝ) (inter : Interaction) :
    fsiStep [] best inter = best := by
  simp [fsiStep]

theorem findSimilarInteraction_nil (e : AIEngine) :
    findSimilarInteraction e [] = (emptyInteraction, 0) := by
  unfold findSimilarInteraction
  generalize (emptyInteraction, (0 : ℝ)) = b
  induction e.contextMemory generalizing b with
  | nil => rfl
  | cons x rest ih => rw [List.foldl_cons, fsiStep_nil, ih]

theorem GenerateAnswer_context_tier (tagger : Tagger) (ord : List (String × String))
    (rnd : ℕ) (e : AIEngine) (q : String)
    (h : (findSimilarInteraction e (analyzeInput tagger q).1).2 > 0.8) :
    GenerateAnswer tagger ord rnd e q =
      (adaptResponse (findSimilarInteraction e (analyzeInput tagger q).1).1.answer
        (analyzeInput tagger q).1, e) := by
  simp only [GenerateAnswer]
  rw [if_pos h]

theorem GenerateAnswer_learned_tier (tagger : Tagger) (ord : List (String × String))
    (rnd : ℕ) (e : AIEngine) (q a : String)
    (h1 : (findSimilarInteraction e (analyzeInput tagger q).1).2 ≤ 0.8)
    (h2 : mapLookup e.kb.learnedEntries q = some a) :
    GenerateAnswer tagger ord rnd e q =
      (adaptResponse a (analyzeInput tagger q).1,
       learnFromInteraction e q (adaptResponse a (analyzeInput tagger q).1)
         (analyzeInput tagger q).1 (evaluateContext e (analyzeInput tagger q).1)) := by
  simp only [GenerateAnswer, h2]
  rw [if_neg (not_lt.mpr h1)]

theorem GenerateAnswer_common_tier (tagger : Tagger) (ord : List (String × String))
    (rnd : ℕ) (e : AIEngine) (q v : String)
    (h1 : (findSimilarInteraction e (analyzeInput tagger q).1).2 ≤ 0.8)
    (h2 : mapLookup e.kb.learnedEntries q = none)
    (h3 : mapLookup e.greetings (goToLower q) = none)
    (h4 : firstContained ord (goToLower q) = some v) :
    GenerateAnswer tagger ord rnd e q = (v, e) := by
  simp only [GenerateAnswer, h2, h3, h4]
  rw [if_neg (not_lt.mpr h1)]

/-- Claim C7: resolution is a total function into answer strings (the model
returns a `String` on every input by construction); a tagger failure is
caught locally: with every earlier tier missing, the resolver returns the
configured "error" default answer and leaves the engine unchanged. -/
theorem GenerateAnswer_tagger_error (tagger : Tagger) (ord : List (String × String))
    (rnd : ℕ) (e : AIEngine) (q msg : String)
    (h0 : tagger q = none)
    (h1 : mapLookup e.kb.learnedEntries q = none)
    (h2 : mapLookup e.greetings (goToLower q) = none)
    (h3 : firstContained ord (goToLower q) = none)
    (h4 : (FindBestMatch e.kb q e.embeddings).2 ≤ 0.7)
    (h5 : mapLookup e.defaultResponses "error" = some msg) :
    GenerateAnswer tagger ord rnd e q = (msg, e) := by
  have hkw : analyzeInput tagger q = ([], []) := by simp [analyzeInput, h0]
  simp only [GenerateAnswer, hkw, findSimilarInteraction_nil, h0, h1, h2, h3, h5]
  rw [if_neg (by norm_num), if_neg (not_lt.mpr h4)]
  simp

def E0 : AIEngine := ⟨⟨[], []⟩, [], [], [], [], [], []⟩

def tag0 : Tagger := fun _ => none

/-- Witness for C7: an engine whose only configuration is the "error"
default answer resolves a failing-tagger question to it. -/
theorem GenerateAnswer_tagger_error_witness :
    GenerateAnswer tag0 [] 0 { E0 with defaultResponses := [("error", "E")] } "q" =
      ("E", { E0 with defaultResponses := [("error", "E")] }) := by
  refine GenerateAnswer_tagger_error tag0 [] 0 _ "q" "E" rfl rfl rfl rfl ?_ ?_
  · simp [FindBestMatch, E0]
    norm_num
  · simp [mapLookup]

/-- Claim C2: after `Learn q a`, resolving the literal question text `q`
while the context memory offers no score above 0.8 returns the learned
answer `a` adapted with the "Based on …, I understand that " prefix when
the extracted keywords are non-empty (and `a` unchanged otherwise), and
appends exactly one new Interaction to the context memory. -/
theorem learn_then_resolve_spec (tagger : Tagger) (ord : List (String × String)) (rnd : ℕ)
    (e : AIEngine) (q a : String)
    (h : (findSimilarInteraction { e with kb := Learn e.kb q a }
        (analyzeInput tagger q).1).2 ≤ 0.8) :
    (GenerateAnswer tagger ord rnd { e with kb := Learn e.kb q a } q).1 =
      (if (analyzeInput tagger q).1.length > 0 then
        "Based on " ++ String.intercalate ", " (analyzeInput tagger q).1 ++
          ", I understand that " ++ a
       else a) ∧
    (GenerateAnswer tagger ord rnd { e with kb := Learn e.kb q a } q).2.contextMemory =
      e.contextMemory ++
        [⟨q, adaptResponse a (analyzeInput tagger q).1, (analyzeInput tagger q).1,
          evaluateContext { e with kb := Learn e.kb q a } (analyzeInput tagger q).1⟩] := by
  have hl : mapLookup ({ e with kb := Learn e.kb q a }).kb.learnedEntries q = some a := by
    simp [Learn, mapLookup_mapInsert_self]
  rw [GenerateAnswer_learned_tier tagger ord rnd _ q a h hl]
  exact ⟨rfl, by simp [learnFromInteraction]⟩

/-- Witness for C2: learning `("q", "ans")` into the empty engine and
resolving `"q"` under a failing tagger returns `"ans"` unchanged and
appends the single corresponding Interaction. -/
theorem learn_then_resolve_spec_witness :
    (GenerateAnswer tag0 [] 0 { E0 with kb := Learn E0.kb "q" "ans" } "q").1 = "ans" ∧
    (GenerateAnswer tag0 [] 0 { E0 with kb := Learn E0.kb "q" "ans" } "q").2.contextMemory =
      [⟨"q", "ans", [], none⟩] := by
  have h := learn_then_resolve_spec tag0 [] 0 E0 "q" "ans"
    (by simp [analyzeInput, tag0, findSimilarInteraction_nil]; norm_num)
  constructor
  · simpa [analyzeInput, tag0] using h.1
  · have h2 := h.2
    simpa [analyzeInput, tag0, adaptResponse, evalCtx_nil_keywords, E0] using h2

/-! ### Lemmas about the Patterns table -/

/-- Every weight stored in a Patterns map is a finite float. -/
def finiteW (p : List (String × Option ℝ)) : Prop :=
  ∀ x ∈ p, ∃ r : ℝ, x.2 = some r

theorem finiteNonneg_finiteW (p : List (String × Option ℝ)) (hp : finiteNonneg p) :
    finiteW p := fun x hx => ⟨(hp x hx).choose, (hp x hx).choose_spec.1⟩

theorem patternsAdd_finiteW (p : List (String × Option ℝ)) (hp : finiteW p)
    (kw : String) (r : ℝ) : finiteW (patternsAdd p kw (some r)) := by
  intro x hx
  rcases mem_mapInsert _ _ _ _ hx with hx' | hx'
  · subst hx'
    cases hl : mapLookup p kw with
    | none => exact ⟨0 + r, by simp [hl, fadd]⟩
    | some weight =>
        obtain ⟨y, hy⟩ := hp (kw, weight) (mapLookup_mem p kw weight hl)
        simp only at hy
        exact ⟨y + r, by simp [hl, hy, fadd]⟩
  · exact hp x hx'

theorem patternsAdd_weight_self (p : List (String × Option ℝ)) (hp : finiteW p)
    (kw : String) (r : ℝ) :
    weightD (patternsAdd p kw (some r)) kw = weightD p kw + r := by
  unfold patternsAdd weightD
  rw [mapLookup_mapInsert_self]
  cases hl : mapLookup p kw with
  | none => simp [hl, fadd]
  | some weight =>
      obtain ⟨x, hx⟩ := hp (kw, weight) (mapLookup_mem p kw weight hl)
      simp only at hx
      simp [hl, hx, fadd]

theorem patternsAdd_weight_ne (p : List (String × Option ℝ)) (kw w : String)
    (inc : Option ℝ) (h : w ≠ kw) :
    weightD (patternsAdd p kw inc) w = weightD p w := by
  unfold patternsAdd weightD
  rw [mapLookup_mapInsert_ne _ _ _ _ h]

theorem patternsAdd_mono (p : List (String × Option ℝ)) (hp : finiteNonneg p)
    (kw : String) (r : ℝ) (hr : 0 ≤ r) :
    finiteNonneg (patternsAdd p kw (some r)) ∧
      ∀ w, weightD p w ≤ weightD (patternsAdd p kw (some r)) w := by
  constructor
  · intro x hx
    rcases mem_mapInsert _ _ _ _ hx with hx' | hx'
    · subst hx'
      cases hl : mapLookup p kw with
      | none => exact ⟨0 + r, by simp [hl, fadd], by linarith⟩
      | some weight =>
          obtain ⟨y, hy, hy0⟩ := hp (kw, weight) (mapLookup_mem p kw weight hl)
          simp only at hy
          exact ⟨y + r, by simp [hl, hy, fadd], by linarith⟩
    · exact hp x hx'
  · intro w
    by_cases hw : w = kw
    · subst hw
      rw [patternsAdd_weight_self p (finiteNonneg_finiteW p hp) w r]
      linarith
    · rw [patternsAdd_weight_ne p kw w _ hw]

theorem patternsFold_mono (k : List String) (inc : Option ℝ) (r : ℝ)
    (hinc : inc = some r) (hr : 0 ≤ r) :
    ∀ p : List (String × Option ℝ), finiteNonneg p →
      finiteNonneg (k.foldl (fun p kw => patternsAdd p kw inc) p) ∧
      ∀ w, weightD p w ≤ weightD (k.foldl (fun p kw => patternsAdd p kw inc) p) w := by
  induction k with
  | nil => exact fun p hp => ⟨hp, fun w => le_rfl⟩
  | cons kw rest ih =>
      intro p hp
      subst hinc
      obtain ⟨hp', hmono⟩ := patternsAdd_mono p hp kw r hr
      obtain ⟨hfin, hmono'⟩ := ih (patternsAdd p kw (some r)) hp'
      exact ⟨by simpa using hfin,
        fun w => le_trans (hmono w) (by simpa using hmono' w)⟩

theorem patternsFold_weight (k : List String) (inc : Option ℝ) (r : ℝ)
    (hinc : inc = some r) :
    ∀ p : List (String × Option ℝ), finiteW p → k.Nodup → ∀ w,
      weightD (k.foldl (fun p kw => patternsAdd p kw inc) p) w =
        weightD p w + (if w ∈ k then r else 0) := by
  induction k with
  | nil => simp
  | cons kw rest ih =>
      intro p hp hnd w
      subst hinc
      have hknotin : kw ∉ rest := (List.nodup_cons.mp hnd).1
      have hndr : rest.Nodup := (List.nodup_cons.mp hnd).2
      have hp' : finiteW (patternsAdd p kw (some r)) := patternsAdd_finiteW p hp kw r
      rw [List.foldl_cons, ih _ hp' hndr w]
      by_cases hw : w = kw
      · subst hw
        rw [patternsAdd_weight_self p hp w r]
        simp [hknotin]
      · rw [patternsAdd_weight_ne p kw w _ hw]
        simp [List.mem_cons, hw]

theorem evalFold_nonneg (p : List (String × Option ℝ)) (hp : finiteNonneg p)
    (l : List String) :
    ∀ acc : ℝ, 0 ≤ acc →
      ∃ s : ℝ, l.foldl (fun s w =>
        match mapLookup p w with
        | some weight => fadd s weight
        | none => s) (some acc) = some s ∧ 0 ≤ s := by
  induction l with
  | nil => exact fun acc hacc => ⟨acc, rfl, hacc⟩
  | cons w rest ih =>
      intro acc hacc
      rw [List.foldl_cons]
      cases hl : mapLookup p w with
      | none => simpa [hl] using ih acc hacc
      | some weight =>
          obtain ⟨x, hx, hx0⟩ := hp (w, weight) (mapLookup_mem p w weight hl)
          simp only at hx
          have hstep : fadd (some acc) weight = some (acc + x) := by rw [hx]; rfl
          simp only [hl, hstep]
          exact ih (acc + x) (by linarith)

theorem evaluateContext_nonneg (e : AIEngine) (hp : finiteNonneg e.patterns)
    (kw : List String) (hkw : kw ≠ []) :
    ∃ r : ℝ, evaluateContext e kw = some r ∧ 0 ≤ r := by
  obtain ⟨s, hs, hs0⟩ := evalFold_nonneg e.patterns hp kw 0 le_rfl
  have hlen : ((kw.length : ℕ) : ℝ) ≠ 0 := by
    have h0 : kw.length ≠ 0 := fun h => hkw (List.length_eq_zero.mp h)
    exact_mod_cast h0
  refine ⟨s / (kw.length : ℝ), ?_, ?_⟩
  · unfold evaluateContext
    rw [hs]
    simp [fdiv, hlen]
  · exact div_nonneg hs0 (Nat.cast_nonneg _)

theorem GenerateAnswer_state_cases (tagger : Tagger) (ord : List (String × String))
    (rnd : ℕ) (e : AIEngine) (q : String) :
    (GenerateAnswer tagger ord rnd e q).2 = e ∨
    (GenerateAnswer tagger ord rnd e q).2 =
      learnFromInteraction e q (GenerateAnswer tagger ord rnd e q).1
        (analyzeInput tagger q).1 (evaluateContext e (analyzeInput tagger q).1) := by
  simp only [GenerateAnswer]
  repeat' split
  all_goals first | exact Or.inl rfl | exact Or.inr rfl

/-- Claim C5: within the resolver, `learnFromInteraction` is the only
operation that changes the Patterns table (the state after a resolution is
either unchanged or exactly its `learnFromInteraction` update);
`learnFromInteraction` raises the weight of each keyword of the interaction by `0.1 * score`; and when every stored weight is a finite,
nonnegative float, a resolution never decreases any Patterns weight (so
repeated resolution of the same learned question is monotone). -/
theorem patterns_monotone_spec :
    (∀ (tagger : Tagger) (ord : List (String × String)) (rnd : ℕ) (e : AIEngine) (q : String),
      (GenerateAnswer tagger ord rnd e q).2 = e ∨
      (GenerateAnswer tagger ord rnd e q).2 =
        learnFromInteraction e q (GenerateAnswer tagger ord rnd e q).1
          (analyzeInput tagger q).1 (evaluateContext e (analyzeInput tagger q).1)) ∧
    (∀ (e : AIEngine) (q a : String) (k : List String) (s : ℝ) (w : String),
      finiteNonneg e.patterns → k.Nodup →
      weightD (learnFromInteraction e q a k (some s)).patterns w =
        weightD e.patterns w + (if w ∈ k then 0.1 * s else 0)) ∧
    (∀ (tagger : Tagger) (ord : List (String × String)) (rnd : ℕ) (e : AIEngine) (q : String),
      finiteNonneg e.patterns →
      finiteNonneg (GenerateAnswer tagger ord rnd e q).2.patterns ∧
      ∀ w, weightD e.patterns w ≤ weightD (GenerateAnswer tagger ord rnd e q).2.patterns w) := by
  refine ⟨GenerateAnswer_state_cases, ?_, ?_⟩
  · intro e q a k s w hp hnd
    exact patternsFold_weight k _ (0.1 * s) rfl e.patterns
      (finiteNonneg_finiteW _ hp) hnd w
  · intro tagger ord rnd e q hp
    rcases GenerateAnswer_state_cases tagger ord rnd e q with h | h
    · rw [h]
      exact ⟨hp, fun w => le_rfl⟩
    · rw [h]
      by_cases hkw : (analyzeInput tagger q).1 = []
      · rw [hkw]
        exact ⟨hp, fun w => le_rfl⟩
      · obtain ⟨s, hs, hs0⟩ := evaluateContext_nonneg e hp _ hkw
        rw [hs]
        exact patternsFold_mono _ _ (0.1 * s) rfl
          (mul_nonneg (by norm_num) hs0) e.patterns hp

/-- Witness for C5 at the empty engine: the resolution disjunction, a
concrete weight increment, and preservation of nonnegative weights. -/
theorem patterns_monotone_spec_witness :
    ((GenerateAnswer tag0 [] 0 E0 "q").2 = E0 ∨
      (GenerateAnswer tag0 [] 0 E0 "q").2 =
        learnFromInteraction E0 "q" (GenerateAnswer tag0 [] 0 E0 "q").1
          (analyzeInput tag0 "q").1 (evaluateContext E0 (analyzeInput tag0 "q").1)) ∧
    (weightD (learnFromInteraction E0 "q" "a" ["go"] (some 1)).patterns "go" =
      weightD E0.patterns "go" + (if "go" ∈ ["go"] then 0.1 * 1 else 0)) ∧
    (finiteNonneg (GenerateAnswer tag0 [] 0 E0 "q").2.patterns ∧
      ∀ w, weightD E0.patterns w ≤ weightD (GenerateAnswer tag0 [] 0 E0 "q").2.patterns w) := by
  refine ⟨patterns_monotone_spec.1 tag0 [] 0 E0 "q",
    patterns_monotone_spec.2.1 E0 "q" "a" ["go"] 1 "go" ?_ ?_,
    patterns_monotone_spec.2.2 tag0 [] 0 E0 "q" ?_⟩
  · intro x hx
    simp [E0] at hx
  · simp
  · intro x hx
    simp [E0] at hx

/-! ### The common-questions tier and map iteration order -/

def E8 : AIEngine := ⟨⟨[], []⟩, [], [], [("a", "A"), ("b", "B")], [], [], []⟩

def cqOrd1 : List (String × String) := [("a", "A"), ("b", "B")]

def cqOrd2 : List (String × String) := [("b", "B"), ("a", "A")]

/-- Counterexample to C8 as stated: the common-questions table
`{"a": "A", "b": "B"}` and the question `"ab"`, whose lowercased text
contains both keys, give different answers under the two possible
iteration orders of the same table, so the tier is not deterministic
across the unspecified Go map range order. -/
theorem commonQuestions_order_cex :
    cqOrd1.Perm E8.commonQuestions ∧ cqOrd2.Perm E8.commonQuestions ∧
    (GenerateAnswer tag0 cqOrd1 0 E8 "ab").1 = "A" ∧
    (GenerateAnswer tag0 cqOrd2 0 E8 "ab").1 = "B" ∧
    ("A" : String) ≠ "B" := by
  have hfsi : (findSimilarInteraction E8 (analyzeInput tag0 "ab").1).2 ≤ 0.8 := by
    simp [analyzeInput, tag0, findSimilarInteraction_nil]
    norm_num
  refine ⟨by decide, by decide, ?_, ?_, by decide⟩
  · rw [GenerateAnswer_common_tier tag0 cqOrd1 0 E8 "ab" "A" hfsi rfl rfl (by decide)]
  · rw [GenerateAnswer_common_tier tag0 cqOrd2 0 E8 "ab" "B" hfsi rfl rfl (by decide)]

/-- Amended C8: the common-questions tier is deterministic only relative
to a fixed iteration order over the table: when the earlier tiers miss and
`v` is the value of the first key of the iteration sequence contained in
the lowercased question, resolution returns `v` (independently of the
random seed) and leaves the state unchanged.  Different iteration orders
of the same table may return different answers (see the counterexample). -/
theorem commonQuestions_deterministic_in_order (tagger : Tagger)
    (ord : List (String × String)) (rnd rnd' : ℕ) (e : AIEngine) (q v : String)
    (h1 : (findSimilarInteraction e (analyzeInput tagger q).1).2 ≤ 0.8)
    (h2 : mapLookup e.kb.learnedEntries q = none)
    (h3 : mapLookup e.greetings (goToLower q) = none)
    (h4 : firstContained ord (goToLower q) = some v) :
    GenerateAnswer tagger ord rnd e q = (v, e) ∧
    GenerateAnswer tagger ord rnd e q = GenerateAnswer tagger ord rnd' e q := by
  rw [GenerateAnswer_common_tier tagger ord rnd e q v h1 h2 h3 h4,
    GenerateAnswer_common_tier tagger ord rnd' e q v h1 h2 h3 h4]
  exact ⟨rfl, rfl⟩

/-- Witness for amended C8: under the fixed order `cqOrd1` the question
`"ab"` always resolves to `"A"`, whatever the random seed. -/
theorem commonQuestions_deterministic_in_order_witness :
    GenerateAnswer tag0 cqOrd1 0 E8 "ab" = ("A", E8) ∧
    GenerateAnswer tag0 cqOrd1 0 E8 "ab" = GenerateAnswer tag0 cqOrd1 1 E8 "ab" := by
  refine commonQuestions_deterministic_in_order tag0 cqOrd1 0 1 E8 "ab" "A" ?_ rfl rfl
    (by decide)
  simp [analyzeInput, tag0, findSimilarInteraction_nil]
  norm_num

/-! ### The double-adaptation feedback of the context-memory tier -/

theorem foldl_add_ge (f : String → ℕ) :
    ∀ l : List String, (∀ x ∈ l, 1 ≤ f x) →
      ∀ c : ℕ, c + l.length ≤ l.foldl (fun c x => c + f x) c := by
  intro l
  induction l with
  | nil =>
      intro _ c
      simp
  | cons x rest ih =>
      intro h c
      rw [List.foldl_cons, List.length_cons]
      have hx := h x (List.mem_cons_self _ _)
      have hr := ih (fun y hy => h y (List.mem_cons_of_mem _ hy)) (c + f x)
      omega

theorem matchCount_self_le (kw : List String) : kw.length ≤ matchCount kw kw := by
  have h := foldl_add_ge
    (fun k1 => (kw.filter fun k2 => goToLower k1 = goToLower k2).length) kw ?_ 0
  · simpa [matchCount] using h
  · intro x hx
    have hmem : x ∈ kw.filter fun k2 => goToLower x = goToLower k2 :=
      List.mem_filter.mpr ⟨hx, by simp⟩
    exact List.length_pos.mpr (List.ne_nil_of_mem hmem)

theorem findSimilarInteraction_ctx_nil (e : AIEngine) (h : e.contextMemory = [])
    (kw : List String) : findSimilarInteraction e kw = (emptyInteraction, 0) := by
  unfold findSimilarInteraction
  rw [h]
  rfl

theorem findSimilarInteraction_singleton (e : AIEngine) (inter : Interaction)
    (hctx : e.contextMemory = [inter]) (kw : List String) (hkw : kw ≠ [])
    (hpos : 0 < matchCount kw inter.keywords) :
    findSimilarInteraction e kw =
      (inter, (matchCount kw inter.keywords : ℝ) / (kw.length : ℝ)) := by
  unfold findSimilarInteraction
  rw [hctx]
  simp only [List.foldl_cons, List.foldl_nil]
  unfold fsiStep
  have hlen : 0 < kw.length := List.length_pos.mpr hkw
  rw [if_pos hlen]
  have hsc : (0 : ℝ) < (matchCount kw inter.keywords : ℝ) / (kw.length : ℝ) :=
    div_pos (by exact_mod_cast hpos) (by exact_mod_cast hlen)
  rw [if_pos hsc]

/-- Claim C10: with empty context memory, resolving a learned question with
non-empty keywords stores the already-adapted answer (carrying the
"Based on …, I understand that " prefix) in the appended Interaction, and
a second resolution of the same question then hits the context-memory tier
(its overlap score is ≥ 1 > 0.8) and adapts the stored answer again,
returning the prefix applied twice. -/
theorem double_adapt_on_context_hit (tagger : Tagger)
    (ord ord' : List (String × String)) (rnd rnd' : ℕ) (e : AIEngine) (q a : String)
    (hkw : (analyzeInput tagger q).1 ≠ [])
    (hctx : e.contextMemory = [])
    (hlearn : mapLookup e.kb.learnedEntries q = some a) :
    (GenerateAnswer tagger ord rnd e q).2.contextMemory =
      [⟨q, "Based on " ++ String.intercalate ", " (analyzeInput tagger q).1 ++
          ", I understand that " ++ a,
        (analyzeInput tagger q).1, evaluateContext e (analyzeInput tagger q).1⟩] ∧
    (GenerateAnswer tagger ord' rnd' (GenerateAnswer tagger ord rnd e q).2 q).1 =
      "Based on " ++ String.intercalate ", " (analyzeInput tagger q).1 ++
        ", I understand that " ++
        ("Based on " ++ String.intercalate ", " (analyzeInput tagger q).1 ++
          ", I understand that " ++ a) := by
  set kw := (analyzeInput tagger q).1 with hkwdef
  have hlen : 0 < kw.length := List.length_pos.mpr hkw
  have hadapt : adaptResponse a kw =
      "Based on " ++ String.intercalate ", " kw ++ ", I understand that " ++ a := by
    unfold adaptResponse
    rw [if_pos hlen]
  have h1 : (findSimilarInteraction e kw).2 ≤ 0.8 := by
    rw [findSimilarInteraction_ctx_nil e hctx kw]
    norm_num
  have hfirst := GenerateAnswer_learned_tier tagger ord rnd e q a h1 hlearn
  have hctx' : (GenerateAnswer tagger ord rnd e q).2.contextMemory =
      [⟨q, adaptResponse a kw, kw, evaluateContext e kw⟩] := by
    rw [hfirst]
    simp [learnFromInteraction, hctx]
  constructor
  · rw [hctx', hadapt]
  · have hmc : 0 < matchCount kw kw := lt_of_lt_of_le hlen (matchCount_self_le kw)
    have hfsi : findSimilarInteraction (GenerateAnswer tagger ord rnd e q).2 kw =
        (⟨q, adaptResponse a kw, kw, evaluateContext e kw⟩,
          (matchCount kw kw : ℝ) / (kw.length : ℝ)) :=
      findSimilarInteraction_singleton _ _ hctx' kw hkw hmc
    have hscore : (0.8 : ℝ) <
        (findSimilarInteraction (GenerateAnswer tagger ord rnd e q).2 kw).2 := by
      rw [hfsi]
      have h1le : (1 : ℝ) ≤ (matchCount kw kw : ℝ) / (kw.length : ℝ) := by
        rw [le_div_iff₀ (by exact_mod_cast hlen), one_mul]
        exact_mod_cast matchCount_self_le kw
      linarith
    have hsecond := GenerateAnswer_context_tier tagger ord' rnd'
      (GenerateAnswer tagger ord rnd e q).2 q hscore
    rw [hsecond]
    simp only [hfsi]
    rw [← hkwdef]
    unfold adaptResponse
    rw [if_pos hlen, if_pos hlen]

def tag1 : Tagger := fun _ => some [("go", "NOUN")]

def E1 : AIEngine := ⟨⟨[], [("q", "ans")]⟩, [], [], [], [], [], []⟩

/-- Witness for C10: learning `("q", "ans")` with keyword `go` stores the
adapted answer, and the second resolution returns the doubly-prefixed
answer. -/
theorem double_adapt_on_context_hit_witness :
    (GenerateAnswer tag1 [] 0 E1 "q").2.contextMemory =
      [⟨"q", "Based on go, I understand that ans", ["go"], evaluateContext E1 ["go"]⟩] ∧
    (GenerateAnswer tag1 [] 0 (GenerateAnswer tag1 [] 0 E1 "q").2 "q").1 =
      "Based on go, I understand that Based on go, I understand that ans" := by
  have h := double_adapt_on_context_hit tag1 [] [] 0 0 E1 "q" "ans"
    (by simp [analyzeInput, tag1]) rfl rfl
  exact ⟨h.1, h.2⟩

end
